import Mathlib

/-!
Verification of `ssfinetuning/default_args.py`: a shallow embedding of the
module's data model (Python dictionaries as insertion-ordered association
lists), of the free functions `get_default_cm` and `encode`, and of the
`DefaultArgs` class (`__init__`, `set_default_args`, `get_default_ta_sup`,
`get_default_ta`), followed by theorems settling the specification claims.
-/

namespace SSFT

/-- A tokenizer object, as produced by `AutoTokenizer.from_pretrained`.
We record only the identity-relevant data the module passes to the loader:
the pretrained model identifier and the optional `model_max_length`. -/
structure Tokenizer where
  name : String
  modelMaxLength : Option Nat
deriving DecidableEq

/-- Python values stored in the kwargs / profile dictionaries:
strings, numbers (modelled as rationals), booleans, `np.inf`, the opaque
closure produced by `get_default_cm` (`cm`), tokenizer objects, nested
dictionaries (for the `args_ta` / `args_ta_sup` override mappings), and
`none_` for Python `None` and other opaque non-dict values. -/
inductive Val where
  | str : String → Val
  | num : ℚ → Val
  | bool : Bool → Val
  | inf : Val
  | cm : Val
  | tok : Tokenizer → Val
  | dict : List (String × Val) → Val
  | none_ : Val

/-- `isinstance(v, dict)`. -/
def Val.isDict : Val → Bool
  | .dict _ => true
  | _ => false

mutual

/-- Boolean equality of Python values (used for dictionary-key lookup in
dataset rows, where keys are arbitrary values). -/
def Val.beq : Val → Val → Bool
  | .str a, .str b => a == b
  | .num a, .num b => a == b
  | .bool a, .bool b => a == b
  | .inf, .inf => true
  | .cm, .cm => true
  | .tok a, .tok b => a == b
  | .dict a, .dict b => Val.beqEntries a b
  | .none_, .none_ => true
  | _, _ => false

/-- Boolean equality of dictionary entry lists. -/
def Val.beqEntries : List (String × Val) → List (String × Val) → Bool
  | [], [] => true
  | p :: ps, q :: qs => p.1 == q.1 && Val.beq p.2 q.2 && Val.beqEntries ps qs
  | _, _ => false

end

/-- A Python `dict` with string keys, as an insertion-ordered association
list (Python dicts preserve insertion order; assignment to an existing key
keeps its position). -/
def Dict := List (String × Val)

/-- `d[k]` / `d.get(k)`: value at the first occurrence of key `k`. -/
def dget? : Dict → String → Option Val
  | [], _ => none
  | p :: rest, k => if p.1 = k then some p.2 else dget? rest k

/-- `k in d.keys()`. -/
def dcontains : Dict → String → Bool
  | [], _ => false
  | p :: rest, k => if p.1 = k then true else dcontains rest k

/-- `d[k] = v`: replace in place if the key exists, else append. -/
def dinsert : Dict → String → Val → Dict
  | [], k, v => [(k, v)]
  | p :: rest, k, v => if p.1 = k then (k, v) :: rest else p :: dinsert rest k v

/-- `del d[k]` / the removal effect of `d.pop(k, ...)`. -/
def derase : Dict → String → Dict
  | [], _ => []
  | p :: rest, k => if p.1 = k then derase rest k else p :: derase rest k

/-- `d.update(e)`: assign each entry of `e` into `d`, in order. -/
def dupdate (d : Dict) : Dict → Dict
  | [] => d
  | p :: rest => dupdate (dinsert d p.1 p.2) rest

theorem dget?_dinsert_self (d : Dict) (k : String) (v : Val) :
    dget? (dinsert d k v) k = some v := by
  induction d with
  | nil => simp [dinsert, dget?]
  | cons p rest ih =>
    by_cases h : p.1 = k
    · simp [dinsert, h, dget?]
    · simp [dinsert, h, dget?, ih]

theorem dget?_dinsert_ne (d : Dict) (k k' : String) (v : Val) (h : k ≠ k') :
    dget? (dinsert d k' v) k = dget? d k := by
  have h' : ¬ k' = k := fun hh => h hh.symm
  induction d with
  | nil => simp [dinsert, dget?, h']
  | cons p rest ih =>
    by_cases hp : p.1 = k'
    · have hpk : ¬ p.1 = k := by rw [hp]; exact h'
      simp [dinsert, hp, dget?, h', hpk]
    · by_cases hk : p.1 = k
      · have hkk : ¬ k = k' := fun hh => hp (hk.trans hh)
        simp [dinsert, hp, dget?, hk, hkk]
      · simp [dinsert, hp, dget?, hk, ih]

theorem dcontains_dinsert (d : Dict) (k k' : String) (v : Val) :
    dcontains (dinsert d k' v) k = (dcontains d k || decide (k = k')) := by
  induction d with
  | nil =>
    by_cases h : k = k'
    · simp [dinsert, dcontains, h]
    · have h' : ¬ k' = k := fun hh => h hh.symm
      simp [dinsert, dcontains, h, h']
  | cons p rest ih =>
    by_cases hp : p.1 = k'
    · by_cases hk : k = k'
      · have hpk : p.1 = k := by rw [hp, hk]
        simp [dinsert, hp, dcontains, hk, hpk]
      · have h1 : ¬ k' = k := fun hh => hk hh.symm
        have h2 : ¬ p.1 = k := by rw [hp]; exact h1
        simp [dinsert, hp, dcontains, hk, h1, h2]
    · by_cases hk : p.1 = k
      · have hkk : ¬ k = k' := fun hh => hp (hk.trans hh)
        simp [dinsert, hp, dcontains, hk, hkk]
      · simp [dinsert, hp, dcontains, hk, ih]

theorem dcontains_iff_dget? (d : Dict) (k : String) :
    dcontains d k = true ↔ (dget? d k).isSome := by
  induction d with
  | nil => simp [dcontains, dget?]
  | cons p rest ih =>
    by_cases hp : p.1 = k
    · simp [dcontains, dget?, hp]
    · simp [dcontains, dget?, hp, ih]

theorem dget?_derase_self (d : Dict) (k : String) :
    dget? (derase d k) k = none := by
  induction d with
  | nil => simp [derase, dget?]
  | cons p rest ih =>
    by_cases hp : p.1 = k
    · simp [derase, hp, ih]
    · simp [derase, hp, dget?, ih]

theorem dget?_derase_ne (d : Dict) (k k' : String) (h : k ≠ k') :
    dget? (derase d k') k = dget? d k := by
  have h' : ¬ k' = k := fun hh => h hh.symm
  induction d with
  | nil => simp [derase]
  | cons p rest ih =>
    by_cases hp : p.1 = k'
    · have hpk : ¬ p.1 = k := by rw [hp]; exact h'
      simp [derase, hp, dget?, hpk, h', ih]
    · simp [derase, hp, dget?, ih]

theorem dcontains_derase_ne (d : Dict) (k k' : String) (h : k ≠ k') :
    dcontains (derase d k') k = dcontains d k := by
  have h' : ¬ k' = k := fun hh => h hh.symm
  induction d with
  | nil => simp [derase]
  | cons p rest ih =>
    by_cases hp : p.1 = k'
    · have hpk : ¬ p.1 = k := by rw [hp]; exact h'
      simp [derase, hp, dcontains, hpk, h', ih]
    · simp [derase, hp, dcontains, ih]

theorem dget?_dupdate_notin (d e : Dict) (k : String) (h : dcontains e k = false) :
    dget? (dupdate d e) k = dget? d k := by
  induction e generalizing d with
  | nil => simp [dupdate]
  | cons p rest ih =>
    simp only [dcontains] at h
    by_cases hp : p.1 = k
    · rw [if_pos hp] at h; exact absurd h (by simp)
    · rw [if_neg hp] at h
      rw [dupdate, ih _ h, dget?_dinsert_ne _ _ _ _ (fun hh : k = p.1 => hp hh.symm)]

theorem dcontains_dupdate (d e : Dict) (k : String) :
    dcontains (dupdate d e) k = (dcontains d k || dcontains e k) := by
  induction e generalizing d with
  | nil => simp [dupdate, dcontains]
  | cons p rest ih =>
    rw [dupdate, ih, dcontains_dinsert]
    by_cases hp : p.1 = k
    · simp [dcontains, hp]
    · have h' : ¬ k = p.1 := fun hh => hp hh.symm
      simp [dcontains, hp, h', Bool.or_assoc]

theorem dget?_dupdate_singleton (d : Dict) (k : String) (v : Val) :
    dget? (dupdate d [(k, v)]) k = some v := by
  simp [dupdate, dget?_dinsert_self]

theorem dget?_dupdate_singleton_ne (d : Dict) (k k' : String) (v : Val) (h : k ≠ k') :
    dget? (dupdate d [(k', v)]) k = dget? d k := by
  simp [dupdate, dget?_dinsert_ne _ _ _ _ h]

/-! ## Dataset rows and the external environment -/

/-- One example of the dataset: a Python dict with arbitrary value keys. -/
def Row := List (Val × Val)

/-- Lookup in a row by arbitrary key value. -/
def rowGet? : Row → Val → Option Val
  | [], _ => none
  | p :: rest, k => if Val.beq p.1 k then some p.2 else rowGet? rest k

/-- Assign one entry into a row. -/
def rowInsert : Row → Val → Val → Row
  | [], k, v => [(k, v)]
  | p :: rest, k, v => if Val.beq p.1 k then (k, v) :: rest else p :: rowInsert rest k v

/-- Merge the columns returned by a mapped function into a row (the effect
of `dataset.map` on one example). -/
def rowUpdate (r : Row) : List (Val × Val) → Row
  | [] => r
  | p :: rest => rowUpdate (rowInsert r p.1 p.2) rest

/-- A dataset: a list of example rows. The module treats the dataset
opaquely apart from its `.map` transform. -/
def Dataset := List Row

/-- An external evaluation metric, exposing `.compute(predictions, references)`;
its result is treated opaquely. -/
structure Metric where
  compute : List Nat → List Val → Val

/-- The external world the module calls into: the trainer constructor's
declared parameter names (which gate the kwargs partition), the tokenizer
loader `AutoTokenizer.from_pretrained` (model identifier, `use_fast` flag,
optional `model_max_length`; `none` models a raised exception), the effect
of applying a loaded tokenizer to a text value (the added tokenized
columns), and the metric loader `datasets.load_metric`. -/
structure Env where
  accepted : List String
  load : String → Bool → Option Nat → Option Tokenizer
  tokenize : Tokenizer → Option Val → List (Val × Val)
  loadMetric : String → String → Metric

/-! ## `get_default_cm` -/

/-- Maximum of one row of prediction scores. -/
def rowMax : List ℚ → ℚ
  | [] => 0
  | [x] => x
  | x :: y :: rest => max x (rowMax (y :: rest))

/-- `np.argmax` over one row: the index of the first occurrence of the
maximum value. -/
def argmaxRow : List ℚ → Nat
  | [] => 0
  | [_] => 0
  | x :: y :: rest => if rowMax (y :: rest) ≤ x then 0 else argmaxRow (y :: rest) + 1

/-- `get_default_cm()`: loads the glue/cola metric, then returns a closure
`compute_metrics` that takes `eval_pred = (predictions, labels)`, replaces
`predictions` by the per-row argmax class indices
(`np.argmax(predictions, axis=1)`), and forwards them as predictions with
`labels` as references to `metric.compute`, returning its result. -/
def get_default_cm (env : Env) : (List (List ℚ) × List Val) → Val :=
  let metric := env.loadMetric "glue" "cola"
  fun eval_pred =>
    let predictions := eval_pred.1
    let labels := eval_pred.2
    metric.compute (predictions.map argmaxRow) labels

/-! ## `encode` -/

/-- The hardcoded fallback pretrained-tokenizer identifier in `encode`. -/
def fallbackModelId : String := "cardiffnlp/twitter-xlm-roberta-base-sentiment"

/-- `preprocess_function` inside `encode`, as applied to one example by
`dataset.map`: tokenize the text column and merge the produced columns
into the example. -/
def preprocess (env : Env) (tokenizer : Tokenizer) (text_column_name : Val) (row : Row) : Row :=
  rowUpdate row (env.tokenize tokenizer (rowGet? row text_column_name))

/-- `encode(dataset, model_name, text_column_name)`: try to load the fast
tokenizer for `model_name`; on any failure (a bare `except`) fall back to
loading the hardcoded identifier with `model_max_length=512`; then map the
tokenizer over the dataset and return it with the tokenizer. The result
`none` models an exception propagating out of `encode`, which is possible
only when the fallback load itself fails (it is outside the `try`). -/
def encode (env : Env) (dataset : Dataset) (model_name : String) (text_column_name : Val) :
    Option (Dataset × Tokenizer) :=
  match env.load model_name true none with
  | some tokenizer =>
      some (dataset.map (preprocess env tokenizer text_column_name), tokenizer)
  | none =>
      match env.load fallbackModelId true (some 512) with
      | some tokenizer =>
          some (dataset.map (preprocess env tokenizer text_column_name), tokenizer)
      | none => none

/-! ## `DefaultArgs` -/

/-- The mutable state of a `DefaultArgs` instance: the supervised profile
`kwargs_args_sup` and the semisupervised profile `kwargs_args`. -/
structure SState where
  kwargs_args_sup : Dict
  kwargs_args : Dict

/-- The supervised default profile built in `DefaultArgs.__init__`. -/
def defaultSup : Dict :=
  [("output_dir", Val.str "glue"),
   ("evaluation_strategy", Val.str "epoch"),
   ("learning_rate", Val.num (2 / 100000)),
   ("per_device_train_batch_size", Val.num 16),
   ("per_device_eval_batch_size", Val.num 16),
   ("num_train_epochs", Val.num 10),
   ("weight_decay", Val.num (1 / 100)),
   ("metric_for_best_model", Val.str "matthews_correlation"),
   ("load_best_model_at_end", Val.bool true),
   ("disable_tqdm", Val.bool true),
   ("no_cuda", Val.bool true)]

/-- `DefaultArgs.__init__`: `kwargs_args = kwargs_args_sup.copy()`, then
`kwargs_args['save_steps'] = np.inf`. -/
def initState : SState :=
  { kwargs_args_sup := defaultSup
    kwargs_args := dinsert defaultSup "save_steps" Val.inf }

/-- Modelled from the spec: `extract_keys` is defined in
`ssfinetuning.dataset_utils`, which is not among the provided source files.
Per the spec it partitions `kwargs` against the downstream trainer
constructor's declared parameter names: matched entries form `kwargs_trn`
(first component), unmatched entries remain in `kwargs` (second
component). -/
def extract_keys (accepted : List String) : Dict → Dict × Dict
  | [] => ([], [])
  | p :: rest =>
    let r := extract_keys accepted rest
    if p.1 ∈ accepted then (p :: r.1, r.2) else (r.1, p :: r.2)

/-- How a call to `set_default_args` terminates: a normal return carrying
the encoded dataset (paired, in the source, with the semisupervised
profile); the `UnboundLocalError` raised at the final
`return encoded_dataset, self.kwargs_args` when `encoded_dataset` was
never assigned (the caller-supplied-tokenizer branch); or an exception
propagating out of `encode`. -/
inductive Outcome where
  | ok : Dataset → Outcome
  | unboundLocal : Outcome
  | encodeError : Outcome

/-- The observable effect of one `set_default_args` call: the profile state
after the call, the caller's `kwargs` dictionary after the call (Python
mutates it in place, so it is observable even when the call raises), the
warnings emitted, and how the call terminated. -/
structure SDAResult where
  state : SState
  kwargs : Dict
  warnings : List String
  outcome : Outcome

/-- The advisory warning emitted when a caller-supplied tokenizer is
present among the trainer-accepted kwargs. -/
def tokenizerWarning : String :=
  "tokenizer found. If using tokenizer, please use the encoded dataset. Like done using~set_default_args.encode()"

/-- Lines 123-127 of `set_default_args`: if `kwargs` has an `args_ta_sup`
key whose value is a dict, merge it into the supervised profile and delete
the key; otherwise do nothing. -/
def applySupOverride (st : SState) (kwargs : Dict) : SState × Dict :=
  match dget? kwargs "args_ta_sup" with
  | some (Val.dict d) =>
      ({ st with kwargs_args_sup := dupdate st.kwargs_args_sup d },
       derase kwargs "args_ta_sup")
  | _ => (st, kwargs)

/-- Lines 129-133 of `set_default_args`: same for `args_ta` and the
semisupervised profile. -/
def applyFullOverride (st : SState) (kwargs : Dict) : SState × Dict :=
  match dget? kwargs "args_ta" with
  | some (Val.dict d) =>
      ({ st with kwargs_args := dupdate st.kwargs_args d },
       derase kwargs "args_ta")
  | _ => (st, kwargs)

/-- Lines 111-114 of `set_default_args`: the trainer-accepted partition
`kwargs_trn = extract_keys(Trainer, kwargs)`, with the default
`compute_metrics` closure injected when absent. -/
def mkKwargsTrn (env : Env) (kwargs : Dict) : Dict :=
  let kwargs_trn := (extract_keys env.accepted kwargs).1
  if dcontains kwargs_trn "compute_metrics" then kwargs_trn
  else dinsert kwargs_trn "compute_metrics" Val.cm

/-- The caller's `kwargs` after the trainer-accepted entries were split
off by `extract_keys`. -/
def kwargsRem (env : Env) (kwargs : Dict) : Dict :=
  (extract_keys env.accepted kwargs).2

/-- Line 116 of `set_default_args`:
`kwargs.pop('text_column_name', 'sentence')`, the popped value (the pop
acts on `kwargs` after the trainer-accepted entries were split off). -/
def textColOf (env : Env) (kwargs : Dict) : Val :=
  (dget? (kwargsRem env kwargs) "text_column_name").getD (Val.str "sentence")

/-- Lines 123-133 of `set_default_args`: the `args_ta_sup` merge followed
by the `args_ta` merge. -/
def applyOverrides (st : SState) (kwargs : Dict) : SState × Dict :=
  applyFullOverride (applySupOverride st kwargs).1 (applySupOverride st kwargs).2

/-- `DefaultArgs.set_default_args(dataset, model_name, kwargs)`:
partition `kwargs` with `extract_keys(Trainer, kwargs)`; inject the default
`compute_metrics` closure if absent; if no tokenizer is among the
trainer-accepted kwargs, pop `text_column_name` (default `"sentence"`),
run `encode`, and store the tokenizer, else emit the advisory warning and
skip encoding; merge `args_ta_sup` / `args_ta` dict overrides into the
profiles; merge `kwargs_trn` back into `kwargs`; return. -/
def set_default_args (env : Env) (st : SState) (dataset : Dataset) (model_name : String)
    (kwargs : Dict) : SDAResult :=
  if dcontains (mkKwargsTrn env kwargs) "tokenizer" then
    let s := applyOverrides st (kwargsRem env kwargs)
    { state := s.1
      kwargs := dupdate s.2 (mkKwargsTrn env kwargs)
      warnings := [tokenizerWarning]
      outcome := Outcome.unboundLocal }
  else
    match encode env dataset model_name (textColOf env kwargs) with
    | none =>
        { state := st
          kwargs := derase (kwargsRem env kwargs) "text_column_name"
          warnings := []
          outcome := Outcome.encodeError }
    | some (encoded_dataset, tokenizer) =>
        let s := applyOverrides st (derase (kwargsRem env kwargs) "text_column_name")
        { state := s.1
          kwargs := dupdate s.2 (dinsert (mkKwargsTrn env kwargs) "tokenizer" (Val.tok tokenizer))
          warnings := []
          outcome := Outcome.ok encoded_dataset }

/-- The external `transformers.TrainingArguments` object, recording the
keyword set it was constructed from. -/
structure TrainingArguments where
  params : Dict

/-- `get_default_ta_sup(logging_dir)`: set `logging_dir` on the supervised
profile and construct `TrainingArguments(**kwargs_args_sup)`. -/
def get_default_ta_sup (st : SState) (logging_dir : String) : SState × TrainingArguments :=
  let sup := dinsert st.kwargs_args_sup "logging_dir" (Val.str logging_dir)
  ({ st with kwargs_args_sup := sup }, ⟨sup⟩)

/-- `get_default_ta(logging_dir)`: set `logging_dir` on the semisupervised
profile and construct `TrainingArguments(**kwargs_args)`. -/
def get_default_ta (st : SState) (logging_dir : String) : SState × TrainingArguments :=
  let full := dinsert st.kwargs_args "logging_dir" (Val.str logging_dir)
  ({ st with kwargs_args := full }, ⟨full⟩)

/-- One operation on a `DefaultArgs` instance. -/
inductive Op where
  | setArgs : Env → Dataset → String → Dict → Op
  | taSup : String → Op
  | ta : String → Op

/-- Run one operation, keeping the profile state. -/
def stepOp (st : SState) : Op → SState
  | Op.setArgs env dataset model_name kwargs =>
      (set_default_args env st dataset model_name kwargs).state
  | Op.taSup logging_dir => (get_default_ta_sup st logging_dir).1
  | Op.ta logging_dir => (get_default_ta st logging_dir).1

/-- Run a sequence of operations from a starting state. -/
def runOps (st : SState) (ops : List Op) : SState := ops.foldl stepOp st

/-- An operation whose supplied semisupervised override mapping (if any)
does not explicitly set `save_steps`. -/
def opNoSaveSteps : Op → Bool
  | Op.setArgs _ _ _ kwargs =>
      match dget? kwargs "args_ta" with
      | some (Val.dict d) => !(dcontains d "save_steps")
      | _ => true
  | _ => true

/-! ## Helper lemmas about the embedding -/

theorem dinsert_fresh_dget?_dupdate (d e : Dict) (k : String) (v : Val)
    (h : dcontains e k = false) :
    dget? (dupdate d (dinsert e k v)) k = some v := by
  induction e generalizing d with
  | nil => simp [dinsert, dupdate, dget?_dinsert_self]
  | cons p rest ih =>
    simp only [dcontains] at h
    by_cases hp : p.1 = k
    · rw [if_pos hp] at h; exact absurd h (by simp)
    · rw [if_neg hp] at h
      rw [dinsert, if_neg hp, dupdate, ih _ h]

theorem dcontains_extract_keys_fst (accepted : List String) (kwargs : Dict) (k : String) :
    dcontains (extract_keys accepted kwargs).1 k =
      (dcontains kwargs k && decide (k ∈ accepted)) := by
  induction kwargs with
  | nil => simp [extract_keys, dcontains]
  | cons p rest ih =>
    by_cases hp : p.1 ∈ accepted
    · by_cases hk : p.1 = k
      · subst hk; simp [extract_keys, hp, dcontains]
      · simp [extract_keys, hp, dcontains, hk, ih]
    · by_cases hk : p.1 = k
      · subst hk
        simp [extract_keys, hp, dcontains, ih]
      · simp [extract_keys, hp, dcontains, hk, ih]

theorem dget?_extract_keys_snd (accepted : List String) (kwargs : Dict) (k : String) :
    dget? (extract_keys accepted kwargs).2 k =
      if k ∈ accepted then none else dget? kwargs k := by
  induction kwargs with
  | nil => simp [extract_keys, dget?]
  | cons p rest ih =>
    by_cases hp : p.1 ∈ accepted
    · by_cases hk : k ∈ accepted
      · simp [extract_keys, hp, hk, ih]
      · have hpk : ¬ p.1 = k := fun hh => hk (hh ▸ hp)
        simp [extract_keys, hp, hk, dget?, hpk, ih]
    · by_cases hk : p.1 = k
      · have hka : k ∉ accepted := fun hh => hp (hk ▸ hh)
        simp [extract_keys, hp, dget?, hk, hka]
      · simp [extract_keys, hp, dget?, hk, ih]

theorem dcontains_extract_keys_snd (accepted : List String) (kwargs : Dict) (k : String) :
    dcontains (extract_keys accepted kwargs).2 k =
      (dcontains kwargs k && !(decide (k ∈ accepted))) := by
  induction kwargs with
  | nil => simp [extract_keys, dcontains]
  | cons p rest ih =>
    by_cases hp : p.1 ∈ accepted
    · by_cases hk : p.1 = k
      · subst hk; simp [extract_keys, hp, dcontains, ih]
      · simp [extract_keys, hp, dcontains, hk, ih]
    · by_cases hk : p.1 = k
      · subst hk; simp [extract_keys, hp, dcontains]
      · simp [extract_keys, hp, dcontains, hk, ih]

theorem dcontains_mkKwargsTrn_ne (env : Env) (kwargs : Dict) (k : String)
    (hk : k ≠ "compute_metrics") :
    dcontains (mkKwargsTrn env kwargs) k =
      (dcontains kwargs k && decide (k ∈ env.accepted)) := by
  unfold mkKwargsTrn
  dsimp only
  split
  · rw [dcontains_extract_keys_fst]
  · rw [dcontains_dinsert, dcontains_extract_keys_fst]
    simp [hk]

theorem dcontains_mkKwargsTrn_cm (env : Env) (kwargs : Dict) :
    dcontains (mkKwargsTrn env kwargs) "compute_metrics" = true := by
  unfold mkKwargsTrn
  dsimp only
  split
  · assumption
  · rw [dcontains_dinsert]; simp

theorem textColOf_eq (env : Env) (kwargs : Dict) (h : "text_column_name" ∉ env.accepted) :
    textColOf env kwargs = (dget? kwargs "text_column_name").getD (Val.str "sentence") := by
  unfold textColOf kwargsRem
  rw [dget?_extract_keys_snd]
  simp [h]

theorem dget?_eq_none_of_not_dcontains (d : Dict) (k : String)
    (h : dcontains d k = false) : dget? d k = none := by
  cases hv : dget? d k with
  | none => rfl
  | some v =>
    have hc := (dcontains_iff_dget? d k).2 (by rw [hv]; rfl)
    rw [hc] at h
    cases h

theorem dget?_kwargsRem (env : Env) (kwargs : Dict) (k : String) :
    dget? (kwargsRem env kwargs) k =
      if k ∈ env.accepted then none else dget? kwargs k := by
  unfold kwargsRem
  exact dget?_extract_keys_snd env.accepted kwargs k

theorem applySupOverride_full (st : SState) (kwargs : Dict) :
    (applySupOverride st kwargs).1.kwargs_args = st.kwargs_args := by
  unfold applySupOverride
  cases hv : dget? kwargs "args_ta_sup" with
  | none => rfl
  | some v => cases v <;> rfl

theorem applyFullOverride_sup (st : SState) (kwargs : Dict) :
    (applyFullOverride st kwargs).1.kwargs_args_sup = st.kwargs_args_sup := by
  unfold applyFullOverride
  cases hv : dget? kwargs "args_ta" with
  | none => rfl
  | some v => cases v <;> rfl

theorem applySupOverride_snd_dget? (st : SState) (kwargs : Dict) (k : String)
    (hk : k ≠ "args_ta_sup") :
    dget? (applySupOverride st kwargs).2 k = dget? kwargs k := by
  unfold applySupOverride
  cases hv : dget? kwargs "args_ta_sup" with
  | none => rfl
  | some v => cases v <;> simp [dget?_derase_ne _ _ _ hk]

theorem applyFullOverride_snd_dget? (st : SState) (kwargs : Dict) (k : String)
    (hk : k ≠ "args_ta") :
    dget? (applyFullOverride st kwargs).2 k = dget? kwargs k := by
  unfold applyFullOverride
  cases hv : dget? kwargs "args_ta" with
  | none => rfl
  | some v => cases v <;> simp [dget?_derase_ne _ _ _ hk]

theorem applySupOverride_absent (st : SState) (kwargs : Dict)
    (h : dget? kwargs "args_ta_sup" = none) :
    applySupOverride st kwargs = (st, kwargs) := by
  unfold applySupOverride
  rw [h]

theorem applyFullOverride_absent (st : SState) (kwargs : Dict)
    (h : dget? kwargs "args_ta" = none) :
    applyFullOverride st kwargs = (st, kwargs) := by
  unfold applyFullOverride
  rw [h]

theorem applySupOverride_nondict (st : SState) (kwargs : Dict) (v : Val)
    (hv : dget? kwargs "args_ta_sup" = some v) (hd : v.isDict = false) :
    applySupOverride st kwargs = (st, kwargs) := by
  unfold applySupOverride
  rw [hv]
  cases v
  case dict d => simp [Val.isDict] at hd
  all_goals rfl

theorem applyFullOverride_nondict (st : SState) (kwargs : Dict) (v : Val)
    (hv : dget? kwargs "args_ta" = some v) (hd : v.isDict = false) :
    applyFullOverride st kwargs = (st, kwargs) := by
  unfold applyFullOverride
  rw [hv]
  cases v
  case dict d => simp [Val.isDict] at hd
  all_goals rfl

theorem applySupOverride_dict (st : SState) (kwargs : Dict) (d : List (String × Val))
    (hv : dget? kwargs "args_ta_sup" = some (Val.dict d)) :
    applySupOverride st kwargs =
      ({ st with kwargs_args_sup := dupdate st.kwargs_args_sup d },
       derase kwargs "args_ta_sup") := by
  unfold applySupOverride
  rw [hv]

theorem applyFullOverride_dict (st : SState) (kwargs : Dict) (d : List (String × Val))
    (hv : dget? kwargs "args_ta" = some (Val.dict d)) :
    applyFullOverride st kwargs =
      ({ st with kwargs_args := dupdate st.kwargs_args d },
       derase kwargs "args_ta") := by
  unfold applyFullOverride
  rw [hv]

theorem applySupOverride_sup_cases (st : SState) (kwargs : Dict) :
    (applySupOverride st kwargs).1.kwargs_args_sup = st.kwargs_args_sup ∨
    ∃ d, dget? kwargs "args_ta_sup" = some (Val.dict d) ∧
      (applySupOverride st kwargs).1.kwargs_args_sup = dupdate st.kwargs_args_sup d := by
  unfold applySupOverride
  cases hv : dget? kwargs "args_ta_sup" with
  | none => left; rfl
  | some v =>
    cases v
    case dict d => right; exact ⟨d, rfl, rfl⟩
    all_goals left; rfl

theorem applyFullOverride_full_cases (st : SState) (kwargs : Dict) :
    (applyFullOverride st kwargs).1.kwargs_args = st.kwargs_args ∨
    ∃ d, dget? kwargs "args_ta" = some (Val.dict d) ∧
      (applyFullOverride st kwargs).1.kwargs_args = dupdate st.kwargs_args d := by
  unfold applyFullOverride
  cases hv : dget? kwargs "args_ta" with
  | none => left; rfl
  | some v =>
    cases v
    case dict d => right; exact ⟨d, rfl, rfl⟩
    all_goals left; rfl

theorem applyOverrides_sup_cases (st : SState) (kwargs : Dict) :
    (applyOverrides st kwargs).1.kwargs_args_sup = st.kwargs_args_sup ∨
    ∃ d, dget? kwargs "args_ta_sup" = some (Val.dict d) ∧
      (applyOverrides st kwargs).1.kwargs_args_sup = dupdate st.kwargs_args_sup d := by
  unfold applyOverrides
  rw [applyFullOverride_sup]
  exact applySupOverride_sup_cases st kwargs

theorem applyOverrides_full_cases (st : SState) (kwargs : Dict) :
    (applyOverrides st kwargs).1.kwargs_args = st.kwargs_args ∨
    ∃ d, dget? kwargs "args_ta" = some (Val.dict d) ∧
      (applyOverrides st kwargs).1.kwargs_args = dupdate st.kwargs_args d := by
  unfold applyOverrides
  rcases applyFullOverride_full_cases (applySupOverride st kwargs).1
      (applySupOverride st kwargs).2 with h | ⟨d, hd, he⟩
  · left; rw [h, applySupOverride_full]
  · rw [applySupOverride_snd_dget? _ _ _ (by decide)] at hd
    right
    exact ⟨d, hd, by rw [he, applySupOverride_full]⟩

theorem applyOverrides_snd_dget? (st : SState) (kwargs : Dict) (k : String)
    (h1 : k ≠ "args_ta_sup") (h2 : k ≠ "args_ta") :
    dget? (applyOverrides st kwargs).2 k = dget? kwargs k := by
  unfold applyOverrides
  rw [applyFullOverride_snd_dget? _ _ _ h2, applySupOverride_snd_dget? _ _ _ h1]

theorem applyOverrides_absent (st : SState) (kwargs : Dict)
    (h1 : dget? kwargs "args_ta_sup" = none) (h2 : dget? kwargs "args_ta" = none) :
    applyOverrides st kwargs = (st, kwargs) := by
  unfold applyOverrides
  rw [applySupOverride_absent st kwargs h1]
  exact applyFullOverride_absent st kwargs h2

theorem applyOverrides_sup_dict (st : SState) (kwargs : Dict) (d : List (String × Val))
    (hv : dget? kwargs "args_ta_sup" = some (Val.dict d)) :
    (applyOverrides st kwargs).1.kwargs_args_sup = dupdate st.kwargs_args_sup d := by
  unfold applyOverrides
  rw [applyFullOverride_sup, applySupOverride_dict st kwargs d hv]

theorem applyOverrides_snd_sup_erased (st : SState) (kwargs : Dict) (d : List (String × Val))
    (hv : dget? kwargs "args_ta_sup" = some (Val.dict d)) :
    dget? (applyOverrides st kwargs).2 "args_ta_sup" = none := by
  unfold applyOverrides
  rw [applyFullOverride_snd_dget? _ _ _ (by decide), applySupOverride_dict st kwargs d hv]
  exact dget?_derase_self kwargs "args_ta_sup"

theorem set_default_args_tok_branch (env : Env) (st : SState) (dataset : Dataset)
    (model_name : String) (kwargs : Dict)
    (hc : dcontains (mkKwargsTrn env kwargs) "tokenizer" = true) :
    set_default_args env st dataset model_name kwargs =
      { state := (applyOverrides st (kwargsRem env kwargs)).1
        kwargs := dupdate (applyOverrides st (kwargsRem env kwargs)).2 (mkKwargsTrn env kwargs)
        warnings := [tokenizerWarning]
        outcome := Outcome.unboundLocal } := by
  unfold set_default_args
  rw [if_pos hc]

theorem set_default_args_encfail_branch (env : Env) (st : SState) (dataset : Dataset)
    (model_name : String) (kwargs : Dict)
    (hc : dcontains (mkKwargsTrn env kwargs) "tokenizer" = false)
    (hE : encode env dataset model_name (textColOf env kwargs) = none) :
    set_default_args env st dataset model_name kwargs =
      { state := st
        kwargs := derase (kwargsRem env kwargs) "text_column_name"
        warnings := []
        outcome := Outcome.encodeError } := by
  unfold set_default_args
  rw [if_neg (by simp [hc]), hE]

theorem set_default_args_enc_branch (env : Env) (st : SState) (dataset : Dataset)
    (model_name : String) (kwargs : Dict) (ed : Dataset) (tk : Tokenizer)
    (hc : dcontains (mkKwargsTrn env kwargs) "tokenizer" = false)
    (hE : encode env dataset model_name (textColOf env kwargs) = some (ed, tk)) :
    set_default_args env st dataset model_name kwargs =
      { state := (applyOverrides st (derase (kwargsRem env kwargs) "text_column_name")).1
        kwargs := dupdate
          (applyOverrides st (derase (kwargsRem env kwargs) "text_column_name")).2
          (dinsert (mkKwargsTrn env kwargs) "tokenizer" (Val.tok tk))
        warnings := []
        outcome := Outcome.ok ed } := by
  unfold set_default_args
  rw [if_neg (by simp [hc]), hE]

theorem set_default_args_sup_cases (env : Env) (st : SState) (dataset : Dataset)
    (model_name : String) (kwargs : Dict) :
    (set_default_args env st dataset model_name kwargs).state.kwargs_args_sup =
      st.kwargs_args_sup ∨
    ∃ d, dget? kwargs "args_ta_sup" = some (Val.dict d) ∧
      (set_default_args env st dataset model_name kwargs).state.kwargs_args_sup =
        dupdate st.kwargs_args_sup d := by
  cases hc : dcontains (mkKwargsTrn env kwargs) "tokenizer" with
  | true =>
    rw [set_default_args_tok_branch env st dataset model_name kwargs hc]
    rcases applyOverrides_sup_cases st (kwargsRem env kwargs) with h | ⟨d, hd, he⟩
    · left; exact h
    · rw [dget?_kwargsRem] at hd
      by_cases hacc : "args_ta_sup" ∈ env.accepted
      · rw [if_pos hacc] at hd; cases hd
      · rw [if_neg hacc] at hd; right; exact ⟨d, hd, he⟩
  | false =>
    cases hE : encode env dataset model_name (textColOf env kwargs) with
    | none =>
      rw [set_default_args_encfail_branch env st dataset model_name kwargs hc hE]
      left; rfl
    | some p =>
      obtain ⟨ed, tk⟩ := p
      rw [set_default_args_enc_branch env st dataset model_name kwargs ed tk hc hE]
      rcases applyOverrides_sup_cases st (derase (kwargsRem env kwargs) "text_column_name")
        with h | ⟨d, hd, he⟩
      · left; exact h
      · rw [dget?_derase_ne _ _ _ (by decide), dget?_kwargsRem] at hd
        by_cases hacc : "args_ta_sup" ∈ env.accepted
        · rw [if_pos hacc] at hd; cases hd
        · rw [if_neg hacc] at hd; right; exact ⟨d, hd, he⟩

theorem set_default_args_full_cases (env : Env) (st : SState) (dataset : Dataset)
    (model_name : String) (kwargs : Dict) :
    (set_default_args env st dataset model_name kwargs).state.kwargs_args =
      st.kwargs_args ∨
    ∃ d, dget? kwargs "args_ta" = some (Val.dict d) ∧
      (set_default_args env st dataset model_name kwargs).state.kwargs_args =
        dupdate st.kwargs_args d := by
  cases hc : dcontains (mkKwargsTrn env kwargs) "tokenizer" with
  | true =>
    rw [set_default_args_tok_branch env st dataset model_name kwargs hc]
    rcases applyOverrides_full_cases st (kwargsRem env kwargs) with h | ⟨d, hd, he⟩
    · left; exact h
    · rw [dget?_kwargsRem] at hd
      by_cases hacc : "args_ta" ∈ env.accepted
      · rw [if_pos hacc] at hd; cases hd
      · rw [if_neg hacc] at hd; right; exact ⟨d, hd, he⟩
  | false =>
    cases hE : encode env dataset model_name (textColOf env kwargs) with
    | none =>
      rw [set_default_args_encfail_branch env st dataset model_name kwargs hc hE]
      left; rfl
    | some p =>
      obtain ⟨ed, tk⟩ := p
      rw [set_default_args_enc_branch env st dataset model_name kwargs ed tk hc hE]
      rcases applyOverrides_full_cases st (derase (kwargsRem env kwargs) "text_column_name")
        with h | ⟨d, hd, he⟩
      · left; exact h
      · rw [dget?_derase_ne _ _ _ (by decide), dget?_kwargsRem] at hd
        by_cases hacc : "args_ta" ∈ env.accepted
        · rw [if_pos hacc] at hd; cases hd
        · rw [if_neg hacc] at hd; right; exact ⟨d, hd, he⟩

theorem set_default_args_erase_invariant (env : Env) (st st' : SState) (dataset : Dataset)
    (model_name : String) (kwargs : Dict) (k : String)
    (h1 : k ≠ "tokenizer") (h3 : k ≠ "text_column_name") :
    (set_default_args env st' dataset model_name (derase kwargs k)).warnings =
      (set_default_args env st dataset model_name kwargs).warnings ∧
    (set_default_args env st' dataset model_name (derase kwargs k)).outcome =
      (set_default_args env st dataset model_name kwargs).outcome := by
  have htok : dcontains (mkKwargsTrn env (derase kwargs k)) "tokenizer" =
      dcontains (mkKwargsTrn env kwargs) "tokenizer" := by
    rw [dcontains_mkKwargsTrn_ne _ _ _ (by decide), dcontains_mkKwargsTrn_ne _ _ _ (by decide),
        dcontains_derase_ne _ _ _ (fun hh => h1 hh.symm)]
  have htc : textColOf env (derase kwargs k) = textColOf env kwargs := by
    unfold textColOf
    rw [dget?_kwargsRem, dget?_kwargsRem]
    by_cases hacc : "text_column_name" ∈ env.accepted
    · simp [hacc]
    · simp [hacc, dget?_derase_ne _ _ _ (fun hh => h3 hh.symm)]
  cases hc : dcontains (mkKwargsTrn env kwargs) "tokenizer" with
  | true =>
    rw [set_default_args_tok_branch env st dataset model_name kwargs hc,
        set_default_args_tok_branch env st' dataset model_name (derase kwargs k)
          (by rw [htok]; exact hc)]
    exact ⟨rfl, rfl⟩
  | false =>
    cases hE : encode env dataset model_name (textColOf env kwargs) with
    | none =>
      rw [set_default_args_encfail_branch env st dataset model_name kwargs hc hE,
          set_default_args_encfail_branch env st' dataset model_name (derase kwargs k)
            (by rw [htok]; exact hc) (by rw [htc]; exact hE)]
      exact ⟨rfl, rfl⟩
    | some p =>
      obtain ⟨ed, tk⟩ := p
      rw [set_default_args_enc_branch env st dataset model_name kwargs ed tk hc hE,
          set_default_args_enc_branch env st' dataset model_name (derase kwargs k) ed tk
            (by rw [htok]; exact hc) (by rw [htc]; exact hE)]
      exact ⟨rfl, rfl⟩

theorem rowMax_ge (xs : List ℚ) (j : Nat) (hj : j < xs.length) : xs.getD j 0 ≤ rowMax xs := by
  induction xs generalizing j with
  | nil => simp at hj
  | cons x rest ih =>
    cases rest with
    | nil =>
      cases j with
      | zero => simp [rowMax]
      | succ j' => simp at hj
    | cons y rest' =>
      cases j with
      | zero => simp [rowMax]
      | succ j' =>
        have hj' : j' < (y :: rest').length := by simpa using hj
        calc (x :: y :: rest').getD (j' + 1) 0 = (y :: rest').getD j' 0 := by
              simp [List.getD_cons_succ]
          _ ≤ rowMax (y :: rest') := ih j' hj'
          _ ≤ rowMax (x :: y :: rest') := by simp [rowMax]

theorem argmaxRow_lt_length (xs : List ℚ) (h : xs ≠ []) : argmaxRow xs < xs.length := by
  induction xs with
  | nil => exact absurd rfl h
  | cons x rest ih =>
    cases rest with
    | nil => simp [argmaxRow]
    | cons y rest' =>
      by_cases hle : rowMax (y :: rest') ≤ x
      · simp [argmaxRow, hle]
      · have hlen := ih (by simp)
        simp only [argmaxRow, if_neg hle, List.length_cons] at hlen ⊢
        omega

theorem argmaxRow_getD (xs : List ℚ) (h : xs ≠ []) :
    xs.getD (argmaxRow xs) 0 = rowMax xs := by
  induction xs with
  | nil => exact absurd rfl h
  | cons x rest ih =>
    cases rest with
    | nil => simp [argmaxRow, rowMax]
    | cons y rest' =>
      by_cases hle : rowMax (y :: rest') ≤ x
      · simp [argmaxRow, hle, rowMax, max_eq_left hle]
      · have hlt : x < rowMax (y :: rest') := not_le.mp hle
        have ihy := ih (by simp)
        simp only [argmaxRow, if_neg hle, List.getD_cons_succ]
        rw [ihy]
        simp [rowMax, max_eq_right hlt.le]

theorem argmaxRow_first (xs : List ℚ) (j : Nat) (hj : j < argmaxRow xs) :
    xs.getD j 0 < rowMax xs := by
  induction xs generalizing j with
  | nil => simp [argmaxRow] at hj
  | cons x rest ih =>
    cases rest with
    | nil => simp [argmaxRow] at hj
    | cons y rest' =>
      by_cases hle : rowMax (y :: rest') ≤ x
      · simp only [argmaxRow, if_pos hle] at hj
        omega
      · have hlt : x < rowMax (y :: rest') := not_le.mp hle
        simp only [argmaxRow, if_neg hle] at hj
        have hmax : rowMax (x :: y :: rest') = rowMax (y :: rest') := by
          simp [rowMax, max_eq_right hlt.le]
        cases j with
        | zero =>
          rw [hmax]
          simpa using hlt
        | succ j' =>
          have hrec := ih j' (by omega)
          rw [hmax]
          simpa [List.getD_cons_succ] using hrec

/-! ## Concrete environments used to instantiate the theorems -/

/-- A concrete external environment: the trainer accepts `tokenizer` and
`compute_metrics` (as `transformers.Trainer` does, while `args_ta`,
`args_ta_sup` and `text_column_name` are not Trainer parameters), every
tokenizer load succeeds and records the requested identifier and maximum
length, tokenizing adds no columns, and the metric is constant. -/
def envW : Env :=
  { accepted := ["tokenizer", "compute_metrics"]
    load := fun name _ maxLen => some ⟨name, maxLen⟩
    tokenize := fun _ _ => []
    loadMetric := fun _ _ => ⟨fun _ _ => Val.none_⟩ }

/-- A concrete environment whose tokenizer loader fails for every
identifier except the hardcoded fallback one. -/
def envFallback : Env :=
  { envW with
      load := fun name _ maxLen =>
        if name = fallbackModelId then some ⟨name, maxLen⟩ else none }

/-! ## The claims -/

/-- C1 (code bug in the source): when the kwargs mapping carries a
trainer-accepted `tokenizer` key, `set_default_args` emits the advisory
warning and skips the encoder, but it does NOT return normally: the final
`return encoded_dataset, self.kwargs_args` raises `UnboundLocalError`
because `encoded_dataset` is never assigned in that branch. Evaluated
here at a concrete failing input (the profile state is nevertheless left
intact, as the claim expects of the profile dictionary). -/
theorem C1_tokenizer_branch_raises_unbound_local :
    (set_default_args envW initState [] "albert-base-v2"
        [("tokenizer", Val.tok ⟨"albert-base-v2", none⟩)]).warnings =
      [tokenizerWarning] ∧
    (set_default_args envW initState [] "albert-base-v2"
        [("tokenizer", Val.tok ⟨"albert-base-v2", none⟩)]).outcome =
      Outcome.unboundLocal ∧
    (set_default_args envW initState [] "albert-base-v2"
        [("tokenizer", Val.tok ⟨"albert-base-v2", none⟩)]).state = initState :=
  ⟨rfl, rfl, rfl⟩

/-- C2: for every call to `set_default_args` whose kwargs mapping lacks a
`tokenizer` key, the encoder is invoked on the dataset with the model name
and the text column name popped from kwargs (default `"sentence"`); the
call returns the encoded dataset, and the resulting tokenizer is stored
under the `tokenizer` key of the trainer-accepted kwargs (observable in
the caller's kwargs after the merge-back). -/
theorem C2_missing_tokenizer_invokes_encoder (env : Env) (st : SState) (dataset : Dataset)
    (model_name : String) (kwargs : Dict) (encoded_dataset : Dataset) (tokenizer : Tokenizer)
    (htok : dcontains kwargs "tokenizer" = false)
    (htc : "text_column_name" ∉ env.accepted)
    (henc : encode env dataset model_name
        ((dget? kwargs "text_column_name").getD (Val.str "sentence")) =
      some (encoded_dataset, tokenizer)) :
    (set_default_args env st dataset model_name kwargs).outcome =
      Outcome.ok encoded_dataset ∧
    dget? (set_default_args env st dataset model_name kwargs).kwargs "tokenizer" =
      some (Val.tok tokenizer) := by
  have hcond : dcontains (mkKwargsTrn env kwargs) "tokenizer" = false := by
    rw [dcontains_mkKwargsTrn_ne _ _ _ (by decide), htok]
    rfl
  have henc' : encode env dataset model_name (textColOf env kwargs) =
      some (encoded_dataset, tokenizer) := by
    rw [textColOf_eq _ _ htc]
    exact henc
  rw [set_default_args_enc_branch env st dataset model_name kwargs encoded_dataset tokenizer
    hcond henc']
  exact ⟨rfl, dinsert_fresh_dget?_dupdate _ _ _ _ hcond⟩

/-- Witness for C2 at a concrete input. -/
theorem C2_missing_tokenizer_invokes_encoder_witness :
    (set_default_args envW initState [] "albert-base-v2" []).outcome =
      Outcome.ok [] ∧
    dget? (set_default_args envW initState [] "albert-base-v2" []).kwargs "tokenizer" =
      some (Val.tok ⟨"albert-base-v2", none⟩) :=
  C2_missing_tokenizer_invokes_encoder envW initState [] "albert-base-v2" [] []
    ⟨"albert-base-v2", none⟩ rfl (by decide) rfl

/-- C3: if loading the fast tokenizer for a model identifier fails,
`encode` does not propagate the failure: provided the fixed fallback
identifier (`cardiffnlp/twitter-xlm-roberta-base-sentiment`, loaded with
`model_max_length=512`) yields a tokenizer, `encode` returns normally
with that fallback tokenizer. -/
theorem C3_encode_falls_back (env : Env) (dataset : Dataset) (model_name : String)
    (text_column_name : Val) (tk : Tokenizer)
    (hfail : env.load model_name true none = none)
    (hfb : env.load fallbackModelId true (some 512) = some tk) :
    encode env dataset model_name text_column_name =
      some (dataset.map (preprocess env tk text_column_name), tk) := by
  unfold encode
  rw [hfail, hfb]

/-- Witness for C3 at a concrete input. -/
theorem C3_encode_falls_back_witness :
    envFallback.load "albert-base-v2" true none = none ∧
    encode envFallback [] "albert-base-v2" (Val.str "sentence") =
      some ([], ⟨fallbackModelId, some 512⟩) := by
  refine ⟨rfl, ?_⟩
  exact C3_encode_falls_back envFallback [] "albert-base-v2" (Val.str "sentence")
    ⟨fallbackModelId, some 512⟩ rfl rfl

/-- C4: a call with `args_ta_sup = {'learning_rate': 1e-4}` (and which is
not aborted inside the encoder) sets the supervised profile's
`learning_rate` to `1e-4`, keeps every other supervised key at its
previous value, and removes `args_ta_sup` from the caller's kwargs. -/
theorem C4_args_ta_sup_learning_rate (env : Env) (st : SState) (dataset : Dataset)
    (model_name : String) (kwargs : Dict)
    (hov : dget? kwargs "args_ta_sup" =
      some (Val.dict [("learning_rate", Val.num (1 / 10000))]))
    (hacc : "args_ta_sup" ∉ env.accepted)
    (hout : (set_default_args env st dataset model_name kwargs).outcome ≠
      Outcome.encodeError) :
    dget? (set_default_args env st dataset model_name kwargs).state.kwargs_args_sup
        "learning_rate" = some (Val.num (1 / 10000)) ∧
    (∀ k, k ≠ "learning_rate" →
      dget? (set_default_args env st dataset model_name kwargs).state.kwargs_args_sup k =
        dget? st.kwargs_args_sup k) ∧
    dget? (set_default_args env st dataset model_name kwargs).kwargs "args_ta_sup" =
      none := by
  have hov0 : dget? (kwargsRem env kwargs) "args_ta_sup" =
      some (Val.dict [("learning_rate", Val.num (1 / 10000))]) := by
    rw [dget?_kwargsRem, if_neg hacc]
    exact hov
  have htrn : dcontains (mkKwargsTrn env kwargs) "args_ta_sup" = false := by
    rw [dcontains_mkKwargsTrn_ne _ _ _ (by decide)]
    simp [hacc]
  cases hc : dcontains (mkKwargsTrn env kwargs) "tokenizer" with
  | true =>
    rw [set_default_args_tok_branch env st dataset model_name kwargs hc]
    dsimp only
    rw [applyOverrides_sup_dict st (kwargsRem env kwargs) _ hov0]
    refine ⟨dget?_dupdate_singleton _ _ _, fun k hk => dget?_dupdate_singleton_ne _ _ _ _ hk, ?_⟩
    rw [dget?_dupdate_notin _ _ _ htrn]
    exact applyOverrides_snd_sup_erased st (kwargsRem env kwargs) _ hov0
  | false =>
    cases hE : encode env dataset model_name (textColOf env kwargs) with
    | none =>
      rw [set_default_args_encfail_branch env st dataset model_name kwargs hc hE] at hout
      exact absurd rfl hout
    | some p =>
      obtain ⟨ed, tk⟩ := p
      have hov1 : dget? (derase (kwargsRem env kwargs) "text_column_name") "args_ta_sup" =
          some (Val.dict [("learning_rate", Val.num (1 / 10000))]) := by
        rw [dget?_derase_ne _ _ _ (by decide)]
        exact hov0
      have htrn1 : dcontains (dinsert (mkKwargsTrn env kwargs) "tokenizer" (Val.tok tk))
          "args_ta_sup" = false := by
        rw [dcontains_dinsert, htrn]
        rfl
      rw [set_default_args_enc_branch env st dataset model_name kwargs ed tk hc hE]
      dsimp only
      rw [applyOverrides_sup_dict st (derase (kwargsRem env kwargs) "text_column_name") _ hov1]
      refine ⟨dget?_dupdate_singleton _ _ _, fun k hk => dget?_dupdate_singleton_ne _ _ _ _ hk, ?_⟩
      rw [dget?_dupdate_notin _ _ _ htrn1]
      exact applyOverrides_snd_sup_erased st (derase (kwargsRem env kwargs) "text_column_name")
        _ hov1

/-- Witness for C4 at a concrete input. -/
theorem C4_args_ta_sup_learning_rate_witness :
    dget? (set_default_args envW initState [] "albert-base-v2"
        [("args_ta_sup", Val.dict [("learning_rate", Val.num (1 / 10000))])]).state.kwargs_args_sup
      "learning_rate" = some (Val.num (1 / 10000)) ∧
    dget? (set_default_args envW initState [] "albert-base-v2"
        [("args_ta_sup", Val.dict [("learning_rate", Val.num (1 / 10000))])]).state.kwargs_args_sup
      "weight_decay" = dget? initState.kwargs_args_sup "weight_decay" ∧
    dget? (set_default_args envW initState [] "albert-base-v2"
        [("args_ta_sup", Val.dict [("learning_rate", Val.num (1 / 10000))])]).kwargs
      "args_ta_sup" = none := by
  have h := C4_args_ta_sup_learning_rate envW initState [] "albert-base-v2"
    [("args_ta_sup", Val.dict [("learning_rate", Val.num (1 / 10000))])]
    rfl (by decide) (fun hq => Outcome.noConfusion hq)
  exact ⟨h.1, h.2.1 "weight_decay" (by decide), h.2.2⟩

/-- C5: a call whose kwargs mapping contains neither `args_ta` nor
`args_ta_sup` leaves both profile dictionaries unchanged. -/
theorem C5_no_overrides_profiles_unchanged (env : Env) (st : SState) (dataset : Dataset)
    (model_name : String) (kwargs : Dict)
    (hta : dcontains kwargs "args_ta" = false)
    (htas : dcontains kwargs "args_ta_sup" = false) :
    (set_default_args env st dataset model_name kwargs).state.kwargs_args_sup =
      st.kwargs_args_sup ∧
    (set_default_args env st dataset model_name kwargs).state.kwargs_args =
      st.kwargs_args := by
  constructor
  · rcases set_default_args_sup_cases env st dataset model_name kwargs with h | ⟨d, hd, _⟩
    · exact h
    · rw [dget?_eq_none_of_not_dcontains _ _ htas] at hd
      cases hd
  · rcases set_default_args_full_cases env st dataset model_name kwargs with h | ⟨d, hd, _⟩
    · exact h
    · rw [dget?_eq_none_of_not_dcontains _ _ hta] at hd
      cases hd

/-- Witness for C5 at a concrete input. -/
theorem C5_no_overrides_profiles_unchanged_witness :
    (set_default_args envW initState [] "albert-base-v2"
        [("x", Val.num 1)]).state.kwargs_args_sup = initState.kwargs_args_sup ∧
    (set_default_args envW initState [] "albert-base-v2"
        [("x", Val.num 1)]).state.kwargs_args = initState.kwargs_args :=
  C5_no_overrides_profiles_unchanged envW initState [] "albert-base-v2"
    [("x", Val.num 1)] rfl rfl

theorem stepOp_save_steps (st : SState) (op : Op) (hop : opNoSaveSteps op = true)
    (hst : dget? st.kwargs_args "save_steps" = some Val.inf) :
    dget? (stepOp st op).kwargs_args "save_steps" = some Val.inf := by
  cases op with
  | taSup logging_dir => exact hst
  | ta logging_dir =>
    dsimp only [stepOp, get_default_ta]
    rw [dget?_dinsert_ne _ _ _ _ (by decide)]
    exact hst
  | setArgs env dataset model_name kwargs =>
    dsimp only [stepOp]
    dsimp only [opNoSaveSteps] at hop
    rcases set_default_args_full_cases env st dataset model_name kwargs with h | ⟨d, hd, he⟩
    · rw [h]; exact hst
    · rw [hd] at hop
      simp only [Bool.not_eq_true'] at hop
      rw [he, dget?_dupdate_notin _ _ _ hop]
      exact hst

theorem runOps_save_steps (ops : List Op) (st : SState)
    (hops : ∀ op ∈ ops, opNoSaveSteps op = true)
    (hst : dget? st.kwargs_args "save_steps" = some Val.inf) :
    dget? (runOps st ops).kwargs_args "save_steps" = some Val.inf := by
  induction ops generalizing st with
  | nil => exact hst
  | cons op rest ih =>
    exact ih (stepOp st op) (fun o ho => hops o (List.mem_cons_of_mem _ ho))
      (stepOp_save_steps st op (hops op (List.mem_cons_self _ _)) hst)

/-- C6: across every sequence of operations on a `DefaultArgs` instance
in which no supplied `args_ta` override mapping sets `save_steps`, the
semisupervised profile's `save_steps` stays `np.inf`, so `get_default_ta`
never constructs training arguments with a finite `save_steps`. -/
theorem C6_save_steps_stays_infinite (ops : List Op) (logging_dir : String)
    (hops : ∀ op ∈ ops, opNoSaveSteps op = true) :
    dget? (runOps initState ops).kwargs_args "save_steps" = some Val.inf ∧
    dget? (get_default_ta (runOps initState ops) logging_dir).2.params "save_steps" =
      some Val.inf ∧
    ∀ q : ℚ,
      dget? (get_default_ta (runOps initState ops) logging_dir).2.params "save_steps" ≠
        some (Val.num q) := by
  have h0 : dget? initState.kwargs_args "save_steps" = some Val.inf :=
    dget?_dinsert_self defaultSup "save_steps" Val.inf
  have h1 := runOps_save_steps ops initState hops h0
  have h2 : dget? (get_default_ta (runOps initState ops) logging_dir).2.params "save_steps" =
      some Val.inf := by
    dsimp only [get_default_ta]
    rw [dget?_dinsert_ne _ _ _ _ (by decide)]
    exact h1
  refine ⟨h1, h2, ?_⟩
  intro q hq
  rw [h2] at hq
  injection hq with hv
  exact Val.noConfusion hv

/-- Witness for C6 at a concrete operation sequence. -/
theorem C6_save_steps_stays_infinite_witness :
    (∀ op ∈ ([Op.setArgs envW [] "albert-base-v2"
          [("args_ta", Val.dict [("learning_rate", Val.num 1)])],
        Op.ta "logs", Op.taSup "logs-sup"] : List Op), opNoSaveSteps op = true) ∧
    dget? (get_default_ta (runOps initState
        [Op.setArgs envW [] "albert-base-v2"
          [("args_ta", Val.dict [("learning_rate", Val.num 1)])],
         Op.ta "logs", Op.taSup "logs-sup"]) "logs2").2.params "save_steps" =
      some Val.inf := by
  refine ⟨?_, ?_⟩
  · intro op hop
    simp only [List.mem_cons, List.not_mem_nil, or_false] at hop
    rcases hop with rfl | rfl | rfl <;> rfl
  · exact (C6_save_steps_stays_infinite
      [Op.setArgs envW [] "albert-base-v2"
        [("args_ta", Val.dict [("learning_rate", Val.num 1)])],
       Op.ta "logs", Op.taSup "logs-sup"] "logs2"
      (by
        intro op hop
        simp only [List.mem_cons, List.not_mem_nil, or_false] at hop
        rcases hop with rfl | rfl | rfl <;> rfl)).2.1

/-- C7: after `__init__` the semisupervised profile equals the supervised
profile plus exactly the one extra entry `save_steps = np.inf` (which
disables periodic checkpoint saving); and afterwards an update applied to
one profile never changes the other: a call without `args_ta` leaves the
semisupervised profile untouched, a call without `args_ta_sup` leaves the
supervised profile untouched, and the two `TrainingArguments` getters
each touch only their own profile. -/
theorem C7_full_is_independent_copy_of_sup (env : Env) (st : SState) (dataset : Dataset)
    (model_name : String) (kwargs : Dict) (logging_dir : String) :
    (dget? initState.kwargs_args "save_steps" = some Val.inf ∧
     dget? initState.kwargs_args_sup "save_steps" = none ∧
     ∀ k, k ≠ "save_steps" →
       dget? initState.kwargs_args k = dget? initState.kwargs_args_sup k) ∧
    (dcontains kwargs "args_ta" = false →
      (set_default_args env st dataset model_name kwargs).state.kwargs_args =
        st.kwargs_args) ∧
    (dcontains kwargs "args_ta_sup" = false →
      (set_default_args env st dataset model_name kwargs).state.kwargs_args_sup =
        st.kwargs_args_sup) ∧
    (get_default_ta_sup st logging_dir).1.kwargs_args = st.kwargs_args ∧
    (get_default_ta st logging_dir).1.kwargs_args_sup = st.kwargs_args_sup := by
  refine ⟨⟨dget?_dinsert_self defaultSup "save_steps" Val.inf, rfl, ?_⟩, ?_, ?_, rfl, rfl⟩
  · intro k hk
    exact dget?_dinsert_ne defaultSup k "save_steps" Val.inf hk
  · intro h
    rcases set_default_args_full_cases env st dataset model_name kwargs with hh | ⟨d, hd, _⟩
    · exact hh
    · rw [dget?_eq_none_of_not_dcontains _ _ h] at hd
      cases hd
  · intro h
    rcases set_default_args_sup_cases env st dataset model_name kwargs with hh | ⟨d, hd, _⟩
    · exact hh
    · rw [dget?_eq_none_of_not_dcontains _ _ h] at hd
      cases hd

/-- Witness for C7 at a concrete input: a call that updates the
supervised profile leaves the semisupervised profile unchanged. -/
theorem C7_full_is_independent_copy_of_sup_witness :
    dget? initState.kwargs_args "save_steps" = some Val.inf ∧
    dget? initState.kwargs_args "learning_rate" =
      dget? initState.kwargs_args_sup "learning_rate" ∧
    (set_default_args envW initState [] "albert-base-v2"
        [("args_ta_sup", Val.dict [("num_train_epochs", Val.num 3)])]).state.kwargs_args =
      initState.kwargs_args := by
  have h := C7_full_is_independent_copy_of_sup envW initState [] "albert-base-v2"
    [("args_ta_sup", Val.dict [("num_train_epochs", Val.num 3)])] "logs"
  exact ⟨h.1.1, h.1.2.2 "learning_rate" (by decide), h.2.1 rfl⟩

/-- C8: a non-dict `args_ta_sup` (resp. `args_ta`) value in kwargs is
silently ignored: the corresponding profile dictionary is unchanged, and
the call's warnings and termination are exactly those of the same call
with that key absent — the override handling emits no warning and raises
nothing of its own. -/
theorem C8_nondict_overrides_silently_ignored (env : Env) (st : SState) (dataset : Dataset)
    (model_name : String) (kwargs : Dict) (v : Val) (hd : v.isDict = false) :
    (dget? kwargs "args_ta_sup" = some v →
      (set_default_args env st dataset model_name kwargs).state.kwargs_args_sup =
        st.kwargs_args_sup ∧
      (set_default_args env st dataset model_name kwargs).warnings =
        (set_default_args env st dataset model_name (derase kwargs "args_ta_sup")).warnings ∧
      (set_default_args env st dataset model_name kwargs).outcome =
        (set_default_args env st dataset model_name (derase kwargs "args_ta_sup")).outcome) ∧
    (dget? kwargs "args_ta" = some v →
      (set_default_args env st dataset model_name kwargs).state.kwargs_args =
        st.kwargs_args ∧
      (set_default_args env st dataset model_name kwargs).warnings =
        (set_default_args env st dataset model_name (derase kwargs "args_ta")).warnings ∧
      (set_default_args env st dataset model_name kwargs).outcome =
        (set_default_args env st dataset model_name (derase kwargs "args_ta")).outcome) := by
  constructor
  · intro hv
    have hframe := set_default_args_erase_invariant env st st dataset model_name kwargs
      "args_ta_sup" (by decide) (by decide)
    refine ⟨?_, hframe.1.symm, hframe.2.symm⟩
    rcases set_default_args_sup_cases env st dataset model_name kwargs with h | ⟨d, hdd, _⟩
    · exact h
    · rw [hv] at hdd
      injection hdd with hvd
      rw [hvd] at hd
      cases hd
  · intro hv
    have hframe := set_default_args_erase_invariant env st st dataset model_name kwargs
      "args_ta" (by decide) (by decide)
    refine ⟨?_, hframe.1.symm, hframe.2.symm⟩
    rcases set_default_args_full_cases env st dataset model_name kwargs with h | ⟨d, hdd, _⟩
    · exact h
    · rw [hv] at hdd
      injection hdd with hvd
      rw [hvd] at hd
      cases hd

/-- Witness for C8 at a concrete input. -/
theorem C8_nondict_overrides_silently_ignored_witness :
    (set_default_args envW initState [] "albert-base-v2"
        [("args_ta_sup", Val.num 5)]).state.kwargs_args_sup =
      initState.kwargs_args_sup ∧
    (set_default_args envW initState [] "albert-base-v2"
        [("args_ta_sup", Val.num 5)]).warnings =
      (set_default_args envW initState [] "albert-base-v2"
        (derase [("args_ta_sup", Val.num 5)] "args_ta_sup")).warnings := by
  have h := (C8_nondict_overrides_silently_ignored envW initState [] "albert-base-v2"
    [("args_ta_sup", Val.num 5)] (Val.num 5) rfl).1 rfl
  exact ⟨h.1, h.2.1⟩

/-- C9: the callable returned by `get_default_cm`, on a pair
`(predictions, labels)` with `predictions` a 2D numeric array, forwards
the per-row argmax class indices as predictions and `labels` as
references to the loaded glue/cola metric, returning its result
unchanged; each forwarded index is a valid row index whose entry attains
the row maximum, and it is the first such index. -/
theorem C9_default_cm_argmax_forwarding (env : Env) (predictions : List (List ℚ))
    (labels : List Val) :
    get_default_cm env (predictions, labels) =
      (env.loadMetric "glue" "cola").compute (predictions.map argmaxRow) labels ∧
    ∀ row ∈ predictions, row ≠ [] →
      argmaxRow row < row.length ∧
      row.getD (argmaxRow row) 0 = rowMax row ∧
      (∀ j, j < row.length → row.getD j 0 ≤ rowMax row) ∧
      (∀ j, j < argmaxRow row → row.getD j 0 < rowMax row) := by
  refine ⟨rfl, ?_⟩
  intro row _ hrow
  exact ⟨argmaxRow_lt_length row hrow, argmaxRow_getD row hrow,
    fun j hj => rowMax_ge row j hj, fun j hj => argmaxRow_first row j hj⟩

/-- Witness for C9 at a concrete input. -/
theorem C9_default_cm_argmax_forwarding_witness :
    get_default_cm envW ([[1, 3, 2]], [Val.num 0]) =
      (envW.loadMetric "glue" "cola").compute [1] [Val.num 0] ∧
    argmaxRow [1, 3, 2] < 3 := by
  have h := C9_default_cm_argmax_forwarding envW [[1, 3, 2]] [Val.num 0]
  have h2 := h.2 [1, 3, 2] (by simp) (by simp)
  constructor
  · rw [h.1]
    rfl
  · exact h2.1

/-- C10: every call to `set_default_args` that returns normally leaves
both a `compute_metrics` key and a `tokenizer` key in the caller's kwargs
mapping (the trainer-accepted partition is merged back before the
return). -/
theorem C10_normal_return_kwargs_has_cm_and_tokenizer (env : Env) (st : SState)
    (dataset : Dataset) (model_name : String) (kwargs : Dict) (encoded_dataset : Dataset)
    (h : (set_default_args env st dataset model_name kwargs).outcome =
      Outcome.ok encoded_dataset) :
    dcontains (set_default_args env st dataset model_name kwargs).kwargs
      "compute_metrics" = true ∧
    dcontains (set_default_args env st dataset model_name kwargs).kwargs
      "tokenizer" = true := by
  cases hc : dcontains (mkKwargsTrn env kwargs) "tokenizer" with
  | true =>
    rw [set_default_args_tok_branch env st dataset model_name kwargs hc] at h
    exact Outcome.noConfusion h
  | false =>
    cases hE : encode env dataset model_name (textColOf env kwargs) with
    | none =>
      rw [set_default_args_encfail_branch env st dataset model_name kwargs hc hE] at h
      exact Outcome.noConfusion h
    | some p =>
      obtain ⟨ed, tk⟩ := p
      rw [set_default_args_enc_branch env st dataset model_name kwargs ed tk hc hE]
      dsimp only
      constructor
      · have hcm : dcontains (dinsert (mkKwargsTrn env kwargs) "tokenizer" (Val.tok tk))
            "compute_metrics" = true := by
          rw [dcontains_dinsert, dcontains_mkKwargsTrn_cm]
          rfl
        rw [dcontains_dupdate, hcm, Bool.or_true]
      · have htk : dcontains (dinsert (mkKwargsTrn env kwargs) "tokenizer" (Val.tok tk))
            "tokenizer" = true := by
          rw [dcontains_dinsert, hc]
          rfl
        rw [dcontains_dupdate, htk, Bool.or_true]

/-- Witness for C10 at a concrete input. -/
theorem C10_normal_return_kwargs_has_cm_and_tokenizer_witness :
    dcontains (set_default_args envW initState [] "albert-base-v2" []).kwargs
      "compute_metrics" = true ∧
    dcontains (set_default_args envW initState [] "albert-base-v2" []).kwargs
      "tokenizer" = true :=
  C10_normal_return_kwargs_has_cm_and_tokenizer envW initState [] "albert-base-v2" [] [] rfl

end SSFT
